import Mathlib

/-!
Verification of the help-rendering engine (src/help.go) of the kong
repository: a shallow embedding of the line buffer, the two-column layout,
the flag formatter and the orchestrating renderer, together with theorems
settling the specification's claims.

Conventions of the embedding:
* the shared mutable line slice (`lines *[]string`) is modelled by passing
  the accumulated `List String` explicitly through every operation;
* Go `int` is modelled as `Int` (widths go negative under indentation);
* Go `len(s)` on strings is the UTF-8 byte length, modelled by `strLen`;
  `fmt` string padding counts runes, modelled by `String.length`;
* the fallible output sink (`io.Writer`) is modelled as a state machine
  `σ → String → Except ε σ`.
-/

set_option autoImplicit false

namespace KongHelp

/-- Go `strings.Repeat(" ", n)`: a run of `n` spaces. -/
def spaces (n : Nat) : String := ⟨List.replicate n ' '⟩

/-- Go `strings.TrimRight(s, cutset)` for a one-character cutset. -/
def trimRightChar (c : Char) (s : String) : String :=
  ⟨(s.data.reverse.dropWhile (fun x => x == c)).reverse⟩

/-- Go `strings.TrimRight(s, " ")` as used by `helpWriter.Print`: only the
space character is trimmed, no other whitespace. -/
def trimRightSpaces (s : String) : String := trimRightChar ' ' s

/-- Go `strings.TrimSpace`: trim Unicode whitespace from both ends. -/
def trimWs (s : String) : String :=
  ⟨((s.data.dropWhile Char.isWhitespace).reverse.dropWhile Char.isWhitespace).reverse⟩

/-- Split a character list at every character satisfying `p`; separators
delimit segments and empty segments are kept (Go `strings.Split` semantics). -/
def splitListOnP (p : Char → Bool) : List Char → List (List Char)
  | [] => [[]]
  | x :: xs =>
    let r := splitListOnP p xs
    if p x then [] :: r
    else
      match r with
      | [] => [[x]]
      | h :: t => (x :: h) :: t

/-- Go `strings.Split(s, sep)` for a one-character separator. -/
def splitOnChar (c : Char) (s : String) : List String :=
  (splitListOnP (fun x => x == c) s.data).map (fun l => ⟨l⟩)

/-- Go `strings.Fields`: the maximal whitespace-free words of `s`. -/
def fields (s : String) : List String :=
  ((splitListOnP Char.isWhitespace s.data).filter (fun l => !l.isEmpty)).map
    (fun l => ⟨l⟩)

/-- Go `strings.Join(ls, sep)`. -/
def joinSep (sep : String) : List String → String
  | [] => ""
  | [x] => x
  | x :: y :: xs => x ++ sep ++ joinSep sep (y :: xs)

/-- Go `len(s)` on a string: its UTF-8 byte length. -/
def strLen (s : String) : Nat := s.utf8ByteSize

/-- `fmt.Sprintf("%-*s", n, s)`: left-justify `s` in a field of `n` runes
(`fmt` counts runes for field widths; no truncation). -/
def padRight (s : String) (n : Nat) : String := s ++ spaces (n - s.length)

/-- Modelled from the spec: greedy filling of one line of the Text Wrapper
(the source delegates wrapping to the external `go/doc.ToText`, which is not
part of this repository). `line` is the line built so far, the remaining words
follow; a word is appended when it still fits within `width`. -/
def wrapFill (width : Int) (line : String) : List String → List String
  | [] => [line]
  | w :: ws =>
    if (line.length : Int) + 1 + (w.length : Int) ≤ width then
      wrapFill width (line ++ " " ++ w) ws
    else
      line :: wrapFill width w ws

/-- Modelled from the spec: wrap one paragraph's words at `width`. No produced
line exceeds the width unless a single word does; width ≤ 0 is treated as
unbounded, producing a single line for the paragraph. -/
def wrapWords (width : Int) : List String → List String
  | [] => []
  | w :: ws =>
    if width ≤ 0 then [joinSep " " (w :: ws)]
    else wrapFill width w ws

/-- Modelled from the spec: group the lines of the input into paragraphs,
blank lines (lines that trim to empty) acting as paragraph breaks. -/
def splitParas : List String → List (List String)
  | [] => []
  | l :: ls =>
    let r := splitParas ls
    if trimWs l == "" then [] :: r
    else
      match r with
      | [] => [[l]]
      | p :: ps => (l :: p) :: ps

/-- Modelled from the spec: the paragraphs of a text, each given as its list
of whitespace-separated words. -/
def paragraphsOf (t : String) : List (List String) :=
  ((splitParas (splitOnChar '\n' t)).filter (fun p => !p.isEmpty)).map
    (fun p => (p.map fields).flatten)

/-- Modelled from the spec: the Text Wrapper (`go/doc.ToText` in the source,
external to this repository), as the list of wrapped lines per paragraph.
Leading/trailing whitespace of the input is trimmed before wrapping. -/
def docToTextLines (text : String) (width : Int) : List (List String) :=
  (paragraphsOf (trimWs text)).map (wrapWords width)

/-- Modelled from the spec: the Text Wrapper's output buffer. Each produced
line is newline-terminated and paragraphs are separated by a blank line;
whitespace-only input produces an empty buffer. -/
def docToText (text : String) (width : Int) : String :=
  let ps := docToTextLines text width
  if ps.isEmpty then ""
  else joinSep "\n\n" (ps.map (joinSep "\n")) ++ "\n"

/-- A positional argument of the model consumed by the renderer. -/
structure Positional where
  summary : String
  help : String
deriving DecidableEq

/-- A flag of the model. Go's `Short` is a rune with 0 meaning "no short
form", modelled as `Option Char`. `isBool` and `placeHolder` model the
`IsBool()` and `FormatPlaceHolder()` accessors, which live outside src. -/
structure Flag where
  name : String
  short : Option Char
  isBool : Bool
  placeHolder : String
  hidden : Bool
  help : String
deriving DecidableEq

/-- Modelled from the spec: `Flag.IsBool` — boolean-ness of a flag (presence
implies no value required); an accessor of the external model. -/
def Flag.IsBool (f : Flag) : Bool := f.isBool

/-- Modelled from the spec: `Flag.FormatPlaceHolder` — the value hint shown
for a non-boolean flag; an accessor of the external model. -/
def Flag.FormatPlaceHolder (f : Flag) : String := f.placeHolder

/-- A node of the command tree (the application root or a command; Go's
`Command` is the same type). Stored attributes follow the spec's data model:
name, help text, summary string, dotted path, hidden marker, positionals,
grouped flags, and child command nodes. -/
inductive Node where
  | mk (name : String) (help : String) (summary : String) (path : String)
      (hidden : Bool) (positional : List Positional)
      (flags : List (List Flag)) (children : List Node)

def Node.name : Node → String
  | .mk n _ _ _ _ _ _ _ => n

def Node.help : Node → String
  | .mk _ h _ _ _ _ _ _ => h

/-- Modelled from the spec: `Node.Summary()` — the machine-derivable one-line
usage form of a node; an accessor of the external model, stored here. -/
def Node.Summary : Node → String
  | .mk _ _ s _ _ _ _ _ => s

/-- Modelled from the spec: `Node.Path()` — the dotted path string of a
nested command; an accessor of the external model, stored here. -/
def Node.Path : Node → String
  | .mk _ _ _ p _ _ _ _ => p

def Node.hidden : Node → Bool
  | .mk _ _ _ _ h _ _ _ => h

def Node.positional : Node → List Positional
  | .mk _ _ _ _ _ ps _ _ => ps

/-- Modelled from the spec: `Node.AllFlags()` — the node's flags, already
resolved and inherited, organized into ordered groups. -/
def Node.AllFlags : Node → List (List Flag)
  | .mk _ _ _ _ _ _ fs _ => fs

def Node.children : Node → List Node
  | .mk _ _ _ _ _ _ _ cs => cs

/-- Modelled from the spec: `Node.Leaves()` — the directly visible child
commands of a node, hidden ones excluded. -/
def Node.Leaves (n : Node) : List Node := n.children.filter (fun c => !c.hidden)

/-- The application: its root node and the process name. -/
structure Application where
  node : Node
  name : String

def Application.Summary (a : Application) : String := a.node.Summary

def Application.Leaves (a : Application) : List Node := a.node.Leaves

/-- The rendering context. `width` models `guessWidth(ctx.App.Stdout)`, the
external terminal-width provider (default 80); the sink itself is passed
separately to the flush step. -/
structure Context where
  app : Application
  selected : Option Node
  width : Int

/-- Modelled from the spec: `Context.Empty()` — the model defines no commands
anywhere; equivalently, the root node has no child command at all. -/
def Context.Empty (ctx : Context) : Bool := ctx.app.node.children.isEmpty

def defaultIndent : Nat := 2

def defaultColumnPadding : Nat := 4

/-- Options for help printers: `summary` (usage plus hint only) and
`compact` (dense subcommand table). -/
structure HelpPrinterOptions where
  summary : Bool
  compact : Bool
deriving DecidableEq

/-- The help writer view: indent prefix, remaining width, and the embedded
options. The shared line slice is passed explicitly to each operation. -/
structure helpWriter where
  indent : String
  width : Int
  summary : Bool
  compact : Bool

def newHelpWriter (ctx : Context) (options : HelpPrinterOptions) : helpWriter :=
  { indent := "", width := ctx.width,
    summary := options.summary, compact := options.compact }

/-- `helpWriter.Print`: append one line, the indent prefix applied and
trailing spaces trimmed at the point of insertion. -/
def helpWriter.Print (h : helpWriter) (text : String) (lines : List String) :
    List String :=
  lines ++ [trimRightSpaces (h.indent ++ text)]

/-- `helpWriter.Printf`: `fmt.Sprintf` (external formatting) followed by
`Print`; the embedding receives the already formatted text. -/
def helpWriter.Printf (h : helpWriter) (text : String) (lines : List String) :
    List String :=
  h.Print text lines

/-- `helpWriter.Indent`: a child view with two more columns of indent and two
fewer columns of width, sharing the same accumulated lines. -/
def helpWriter.Indent (h : helpWriter) : helpWriter :=
  { indent := h.indent ++ "  ", width := h.width - 2,
    summary := h.summary, compact := h.compact }

/-- `helpWriter.Wrap`: wrap the trimmed text at the writer's width and print
every resulting line. -/
def helpWriter.Wrap (h : helpWriter) (text : String) (lines : List String) :
    List String :=
  let buf := docToText (trimWs text) h.width
  (splitOnChar '\n' (trimWs buf)).foldl (fun ls l => h.Print l ls) lines

/-- `helpWriter.Write`: flush every accumulated line, newline-terminated, to
the sink in insertion order, returning the first write error. -/
def helpWriter.Write {σ ε : Type} (write : σ → String → Except ε σ)
    (lines : List String) (s : σ) : Except ε σ :=
  match lines with
  | [] => .ok s
  | l :: rest =>
    match write s (l ++ "\n") with
    | .error e => .error e
    | .ok s1 => helpWriter.Write write rest s1

/-- `formatFlag`: the canonical display string of one flag, given whether any
short flag is present at all (used for column alignment). -/
def formatFlag (haveShort : Bool) (flag : Flag) : String :=
  let name := flag.name
  let isBool := flag.IsBool
  let flagString :=
    match flag.short with
    | some c => "-" ++ String.singleton c ++ ", --" ++ name
    | none => if haveShort then "    --" ++ name else "--" ++ name
  if !isBool then flagString ++ "=" ++ flag.FormatPlaceHolder else flagString

/-- The pre-scan of `writeFlags`: whether any flag of any group has a short
form. The `break` in the source only leaves the inner loop, so the result is
a plain disjunction over the whole (hidden flags included) flag set. -/
def flagsHaveShort (groups : List (List Flag)) : Bool :=
  groups.any (fun group => group.any (fun flag => flag.short.isSome))

/-- One iteration of the row-building loop of `writeFlags`: a blank separator
row before every group after the first (the counter plays the range index),
then one row per non-hidden flag of the group. -/
def flagRowsStep (haveShort : Bool) (acc : List (String × String) × Nat)
    (group : List Flag) : List (String × String) × Nat :=
  let rows := if acc.2 > 0 then acc.1 ++ [("", "")] else acc.1
  let rows := rows ++ (group.filter (fun f => !f.hidden)).map
    (fun flag => (formatFlag haveShort flag, flag.help))
  (rows, acc.2 + 1)

/-- The row-building loop of `writeFlags`. -/
def flagRows (haveShort : Bool) (groups : List (List Flag)) :
    List (String × String) :=
  (groups.foldl (flagRowsStep haveShort) ([], 0)).1

/-- The first-column sizing loop of `writeTwoColumns`: the largest label
length strictly below the 30-byte cutoff (0 when there is none). -/
def twoColumnsLeftSize (rows : List (String × String)) : Nat :=
  rows.foldl
    (fun leftSize row =>
      if strLen row.1 > leftSize ∧ strLen row.1 < 30 then strLen row.1
      else leftSize)
    0

/-- `writeTwoColumns`: align labels into a shared column, wrap each
description into the remaining width, and print the resulting lines. A label
at or above the cutoff is printed alone; its description continues at the
offset computed from the other rows. -/
def writeTwoColumns (w : helpWriter) (padding : Nat)
    (rows : List (String × String)) (lines : List String) : List String :=
  let leftSize := twoColumnsLeftSize rows
  let offsetStr := spaces (leftSize + padding)
  rows.foldl
    (fun ls row =>
      let wrapped := splitOnChar '\n'
        (trimRightChar '\n'
          (docToText row.2 (w.width - (leftSize : Int) - (padding : Int))))
      let line := padRight row.1 leftSize
      let line :=
        if strLen row.1 < 30 then line ++ spaces padding ++ wrapped.headD ""
        else line
      let rest := if strLen row.1 < 30 then wrapped.tail else wrapped
      let ls := w.Print line ls
      rest.foldl (fun ls2 l => w.Printf (offsetStr ++ l) ls2) ls)
    lines

/-- `writeFlags`: the flag table — pre-scan for short flags, build the rows,
lay them out in two columns. -/
def writeFlags (w : helpWriter) (groups : List (List Flag))
    (lines : List String) : List String :=
  writeTwoColumns w defaultColumnPadding
    (flagRows (flagsHaveShort groups) groups) lines

/-- Modelled from the spec: `Positional.Summary()` — the summary form (name
plus value hint) of a positional; an accessor of the external model. -/
def Positional.Summary (arg : Positional) : String := arg.summary

/-- `writePositionals`: the argument table. -/
def writePositionals (w : helpWriter) (args : List Positional)
    (lines : List String) : List String :=
  writeTwoColumns w defaultColumnPadding
    (args.map (fun arg => (arg.Summary, arg.help))) lines

/-- `printCommandSummary`: a command's one-line summary followed by its
indented wrapped help. -/
def printCommandSummary (w : helpWriter) (cmd : Node) (lines : List String) :
    List String :=
  let lines := w.Print cmd.Summary lines
  if cmd.help ≠ "" then w.Indent.Wrap cmd.help lines else lines

/-- `printNodeDetail`: the node-detail block — wrapped help text, then (in
non-summary mode only) the argument table, the flag table, and the
subcommand listing (compact table or one block per command). -/
def printNodeDetail (w : helpWriter) (node : Node) (lines : List String) :
    List String :=
  let lines :=
    if node.help ≠ "" then w.Wrap node.help (w.Print "" lines) else lines
  if w.summary then lines
  else
    let lines :=
      if node.positional.length > 0 then
        writePositionals w.Indent node.positional
          (w.Print "Arguments:" (w.Print "" lines))
      else lines
    let lines :=
      if node.AllFlags.length > 0 then
        writeFlags w.Indent node.AllFlags
          (w.Print "Flags:" (w.Print "" lines))
      else lines
    let cmds := node.Leaves
    if cmds.length > 0 then
      let lines := w.Print "Commands:" (w.Print "" lines)
      let iw := w.Indent
      if w.compact then
        writeTwoColumns iw defaultColumnPadding
          (cmds.map (fun cmd => (cmd.Path, cmd.help))) lines
      else
        (cmds.foldl
          (fun (acc : List String × Nat) cmd =>
            let ls := printCommandSummary iw cmd acc.1
            let ls := if acc.2 ≠ cmds.length - 1 then iw.Print "" ls else ls
            (ls, acc.2 + 1))
          (lines, 0)).1
    else lines

/-- `printApp`: the root render — usage line, node detail, and (when any
top-level command exists) a blank line and the mode-dependent help hint. -/
def printApp (w : helpWriter) (app : Application) (lines : List String) :
    List String :=
  let lines := w.Printf ("Usage:  " ++ app.Summary) lines
  let lines := printNodeDetail w app.node lines
  let cmds := app.Leaves
  if cmds.length > 0 then
    let lines := w.Print "" lines
    if w.summary then
      w.Printf ("Run \"" ++ app.name ++ " --help\" for more information.")
        lines
    else
      w.Printf
        ("Run \"" ++ app.name ++
          " <command> --help\" for more information on a command.")
        lines
  else lines

/-- `printCommand`: the command render — usage line, node detail, and in
summary mode a blank line and the command-specific help hint. -/
def printCommand (w : helpWriter) (app : Application) (cmd : Node)
    (lines : List String) : List String :=
  let lines := w.Printf ("Usage:  " ++ app.name ++ " " ++ cmd.Summary) lines
  let lines := printNodeDetail w cmd lines
  if w.summary then
    let lines := w.Print "" lines
    w.Printf
      ("Run \"" ++ app.name ++ " " ++ cmd.Path ++
        " --help\" for more information.")
      lines
  else lines

/-- The line production of `DefaultHelpPrinter`: empty-model override, writer
construction, and the root-versus-command dispatch; flushing is separate. -/
def renderLines (options : HelpPrinterOptions) (ctx : Context) : List String :=
  let options :=
    if ctx.Empty then { options with summary := false } else options
  let w := newHelpWriter ctx options
  match ctx.selected with
  | none => printApp w ctx.app []
  | some cmd => printCommand w ctx.app cmd []

/-- `DefaultHelpPrinter`: render the selected target and flush the
accumulated lines to the sink. -/
def DefaultHelpPrinter {σ ε : Type} (write : σ → String → Except ε σ)
    (options : HelpPrinterOptions) (ctx : Context) (s : σ) : Except ε σ :=
  helpWriter.Write write (renderLines options ctx) s

/-- Specification-side definition (the spec's words): the maximum label
length among labels strictly below the 30-character cutoff, 0 when no label
is below the cutoff. -/
def maxLabelBelowCutoff (rows : List (String × String)) : Nat :=
  ((rows.filter (fun row => strLen row.1 < 30)).map
    (fun row => strLen row.1)).foldr max 0

/-- Specification-side definition (the spec's words): some non-hidden flag of
the groups has a short form. -/
def visibleHaveShort (groups : List (List Flag)) : Bool :=
  groups.any (fun group =>
    group.any (fun flag => !flag.hidden && flag.short.isSome))

/-- The rows one flag group contributes to the table: one row per non-hidden
flag, formatted with the pre-scanned short-flag boolean. -/
def visibleFlagRows (haveShort : Bool) (group : List Flag) :
    List (String × String) :=
  (group.filter (fun f => !f.hidden)).map
    (fun flag => (formatFlag haveShort flag, flag.help))

/-- Specification-side definition (the spec's words): the summary-mode render
is the usage line, the node's wrapped help when present, and the help hint —
with no Arguments:, Flags: or Commands: section. Built only from the line
buffer primitives; no table layout is mentioned. -/
def specSummaryRender (options : HelpPrinterOptions) (ctx : Context) :
    List String :=
  let w := newHelpWriter ctx options
  match ctx.selected with
  | none =>
    let ls := w.Print ("Usage:  " ++ ctx.app.Summary) []
    let ls :=
      if ctx.app.node.help ≠ "" then
        w.Wrap ctx.app.node.help (w.Print "" ls)
      else ls
    if ctx.app.Leaves.length > 0 then
      w.Print ("Run \"" ++ ctx.app.name ++ " --help\" for more information.")
        (w.Print "" ls)
    else ls
  | some cmd =>
    let ls := w.Print ("Usage:  " ++ ctx.app.name ++ " " ++ cmd.Summary) []
    let ls :=
      if cmd.help ≠ "" then w.Wrap cmd.help (w.Print "" ls) else ls
    w.Print
      ("Run \"" ++ ctx.app.name ++ " " ++ cmd.Path ++
        " --help\" for more information.")
      (w.Print "" ls)

/-- One operation on the line buffer; `Printf` is `Print` after external
formatting, so it is covered by `print`. -/
inductive BufOp where
  | print (text : String)
  | wrap (text : String)

/-- The writer view obtained from `h` by `k` nested `Indent` calls. -/
def iterIndent (h : helpWriter) : Nat → helpWriter
  | 0 => h
  | k + 1 => (iterIndent h k).Indent

/-- Run a sequence of buffer operations against the shared line buffer, each
operation going through one of the indentation views of the base writer. -/
def runOps (h : helpWriter) : List (Nat × BufOp) → List String → List String
  | [], lines => lines
  | (k, .print t) :: rest, lines =>
    runOps h rest ((iterIndent h k).Print t lines)
  | (k, .wrap t) :: rest, lines =>
    runOps h rest ((iterIndent h k).Wrap t lines)

/-- The buffer invariant of the claim, in its amended form: no stored line
ends in a space character. -/
def NoTrailingSpace (lines : List String) : Prop :=
  ∀ s ∈ lines, s.data.getLast? ≠ some ' '

/-- A sink recording every string written to it; it never fails. -/
def appendSink : List String → String → Except Unit (List String) :=
  fun log str => .ok (log ++ [str])

/-- A sink that accepts the next `k` writes (recording them) and fails on the
following one, reporting the record of successful writes as the error. -/
def failSink : Nat × List String → String → Except (List String) (Nat × List String) :=
  fun st str =>
    match st.1 with
    | 0 => .error st.2
    | k + 1 => .ok (k, st.2 ++ [str])

/-- A base writer at the default 80-column width with no indent. -/
def rootWriter : helpWriter :=
  { indent := "", width := 80, summary := false, compact := false }

/-- The flag of the spec's end-to-end example. -/
def verboseFlag : Flag :=
  { name := "verbose", short := some 'v', isBool := true, placeHolder := "",
    hidden := false, help := "enable verbose output" }

def nodeC3 : Node := .mk "app" "" "app [flags]" "" false [] [[verboseFlag]] []

def ctxC3 : Context :=
  { app := { node := nodeC3, name := "app" }, selected := none, width := 80 }

def buildCmd : Node :=
  .mk "build" "Build the project" "build" "build" false [] [] []

def testCmd : Node := .mk "test" "Run tests" "test" "test" false [] [] []

def nodeC8 : Node := .mk "app" "" "app" "" false [] [] [buildCmd, testCmd]

def ctxC8 : Context :=
  { app := { node := nodeC8, name := "app" }, selected := none, width := 80 }

def nodeC5 : Node :=
  .mk "app" "Some help." "app <command>" "" false [] [] [buildCmd]

def ctxC5 : Context :=
  { app := { node := nodeC5, name := "app" }, selected := none, width := 80 }

/-- A hidden flag carrying the only short form of its group. -/
def secretFlag : Flag :=
  { name := "secret", short := some 's', isBool := true, placeHolder := "",
    hidden := true, help := "" }

def longFlag : Flag :=
  { name := "long", short := none, isBool := true, placeHolder := "",
    hidden := false, help := "help" }

def cexGroups : List (List Flag) := [[secretFlag, longFlag]]

def aFlag : Flag :=
  { name := "alpha", short := none, isBool := true, placeHolder := "",
    hidden := false, help := "first" }

def bFlag : Flag :=
  { name := "beta", short := none, isBool := true, placeHolder := "",
    hidden := false, help := "second" }

def hiddenFlag : Flag :=
  { name := "ghost", short := none, isBool := true, placeHolder := "",
    hidden := true, help := "unseen" }

/-- Three flag groups whose middle group consists of hidden flags only. -/
def nodeC10a : Node :=
  .mk "app" "" "app" "" false [] [[aFlag], [hiddenFlag], [bFlag]] []

def ctxC10a : Context :=
  { app := { node := nodeC10a, name := "app" }, selected := none, width := 80 }

/-- A single flag group consisting of hidden flags only. -/
def nodeC10 : Node := .mk "app" "" "app" "" false [] [[hiddenFlag]] []

def ctxC10 : Context :=
  { app := { node := nodeC10, name := "app" }, selected := none, width := 80 }

theorem foldl_leftSize :
    ∀ (rows : List (String × String)) (acc : Nat),
      rows.foldl
        (fun leftSize row =>
          if strLen row.1 > leftSize ∧ strLen row.1 < 30 then strLen row.1
          else leftSize) acc
        = max acc (maxLabelBelowCutoff rows) := by
  intro rows
  induction rows with
  | nil => intro acc; simp [maxLabelBelowCutoff]
  | cons r rest ih =>
    intro acc
    rw [List.foldl_cons, ih]
    by_cases h : strLen r.1 < 30 <;>
      by_cases h2 : strLen r.1 > acc <;>
        simp [maxLabelBelowCutoff, List.filter_cons, h, h2] <;>
        omega

/-- Claim C1: the shared label-column width equals the maximum label length
among labels strictly below the 30-byte cutoff (0 when no such label exists),
and inserting a single row whose label length is at least 30 leaves the
computed column width of the other rows unchanged. (Label lengths are byte
lengths, as in Go's `len`; they agree with character counts on ASCII.) -/
theorem C1_left_column_width :
    (∀ rows : List (String × String),
      twoColumnsLeftSize rows = maxLabelBelowCutoff rows) ∧
    (∀ (pre post : List (String × String)) (row : String × String),
      30 ≤ strLen row.1 →
      twoColumnsLeftSize (pre ++ row :: post) =
        twoColumnsLeftSize (pre ++ post)) := by
  have hmain : ∀ rows, twoColumnsLeftSize rows = maxLabelBelowCutoff rows := by
    intro rows
    rw [twoColumnsLeftSize, foldl_leftSize]
    simp
  refine ⟨hmain, ?_⟩
  intro pre post row h30
  rw [hmain, hmain]
  unfold maxLabelBelowCutoff
  rw [List.filter_append, List.filter_append, List.filter_cons]
  simp [Nat.not_lt.mpr h30]

theorem C1_left_column_width_witness :
    twoColumnsLeftSize
        [("ab", "x"), ("012345678901234567890123456789", "y"), ("cdef", "z")] =
      twoColumnsLeftSize [("ab", "x"), ("cdef", "z")] :=
  C1_left_column_width.2 [("ab", "x")] [("cdef", "z")]
    ("012345678901234567890123456789", "y") (by decide)

/-- Claim C3: the end-to-end example — one boolean flag with a short form, no
positionals, no commands, summary off, width 80 — renders exactly the four
lines of the spec. -/
theorem C3_end_to_end_flag_example :
    renderLines { summary := false, compact := false } ctxC3 =
      ["Usage:  app [flags]", "", "Flags:",
       "  -v, --verbose    enable verbose output"] := by
  decide

/-- Claim C8: the end-to-end example — two visible commands rendered
non-summary and non-compact produce the Commands: section with one block per
command, a single blank line between the blocks and none after the last
block (the final blank line belongs to the hint that follows). -/
theorem C8_commands_section :
    renderLines { summary := false, compact := false } ctxC8 =
      ["Usage:  app", "", "Commands:", "  build", "    Build the project", "",
       "  test", "    Run tests", "",
       "Run \"app <command> --help\" for more information on a command."] := by
  decide

/-- Claim C7: flushing writes every accumulated line, newline-terminated, in
insertion order: against a sink that accepts every write the flush returns
success having written exactly the lines, and against a sink that fails on
the write after its first `k` the first failure's error is returned with
exactly the first `k` lines written and none after. -/
theorem C7_flush_semantics :
    (∀ (lines log : List String),
      helpWriter.Write appendSink lines log =
        .ok (log ++ lines.map (fun l => l ++ "\n"))) ∧
    (∀ (lines : List String) (k : Nat) (log : List String),
      lines.length ≤ k →
      helpWriter.Write failSink lines (k, log) =
        .ok (k - lines.length, log ++ lines.map (fun l => l ++ "\n"))) ∧
    (∀ (lines : List String) (k : Nat) (log : List String),
      k < lines.length →
      helpWriter.Write failSink lines (k, log) =
        .error (log ++ (lines.take k).map (fun l => l ++ "\n"))) := by
  refine ⟨?_, ?_, ?_⟩
  · intro lines
    induction lines with
    | nil => intro log; simp [helpWriter.Write]
    | cons l rest ih =>
      intro log
      simp [helpWriter.Write, appendSink, ih]
  · intro lines
    induction lines with
    | nil => intro k log h; simp [helpWriter.Write]
    | cons l rest ih =>
      intro k log h
      match k with
      | 0 => simp at h
      | k + 1 =>
        have hrec := ih k (log ++ [l ++ "\n"]) (by simpa using h)
        simp [helpWriter.Write, failSink, hrec]
  · intro lines
    induction lines with
    | nil => intro k log h; simp at h
    | cons l rest ih =>
      intro k log h
      match k with
      | 0 => simp [helpWriter.Write, failSink]
      | k + 1 =>
        have hrec := ih k (log ++ [l ++ "\n"]) (by simpa using h)
        simp [helpWriter.Write, failSink, hrec, List.take_succ_cons]

theorem C7_flush_semantics_witness :
    helpWriter.Write failSink ["a", "b", "c"] (2, []) = .error ["a\n", "b\n"] := by
  have h := C7_flush_semantics.2.2 ["a", "b", "c"] 2 [] (by decide)
  simpa using h

theorem perm_any {α : Type} (p : α → Bool) {l l2 : List α} (h : l.Perm l2) :
    l.any p = l2.any p := by
  cases hb : l2.any p
  · rw [List.any_eq_false] at hb ⊢
    intro x hx
    exact hb x (h.mem_iff.mp hx)
  · rw [List.any_eq_true] at hb ⊢
    obtain ⟨x, hx, hpx⟩ := hb
    exact ⟨x, h.mem_iff.mpr hx, hpx⟩

/-- Claim C2: counterexample — in `cexGroups` the only flag with a short form
is hidden, so no flag of the visible set has one, yet the visible long-only
flag is rendered with the 4-space reservation prefix: the "any short flag
exists" scan of the code covers hidden flags too, so it is not a scan of the
visible flag set. -/
theorem C2_counterexample :
    visibleHaveShort cexGroups = false ∧
    flagRows (flagsHaveShort cexGroups) cexGroups = [("    --long", "help")] ∧
    flagRows (flagsHaveShort cexGroups) cexGroups ≠ [("--long", "help")] := by
  exact ⟨by decide, by decide, by decide⟩

/-- Claim C2 (amended): the alignment boolean is computed by one scan of the
full flag set — hidden flags included — before any row is formatted: it
equals the order-independent "some flag of the flattened group set has a
short form" and is invariant under permutation of that set; and a flag
without a short form is rendered with the 4-space reservation prefix exactly
when that scan found a short form anywhere. -/
theorem C2_short_flag_alignment :
    (∀ groups : List (List Flag),
      flagsHaveShort groups = groups.flatten.any (fun f => f.short.isSome)) ∧
    (∀ groups groups2 : List (List Flag),
      groups.flatten.Perm groups2.flatten →
      flagsHaveShort groups = flagsHaveShort groups2) ∧
    (∀ f : Flag, f.short = none →
      formatFlag true f = "    " ++ formatFlag false f) ∧
    (∀ f : Flag, f.short = none →
      formatFlag false f =
        "--" ++ f.name ++
          (if f.IsBool then "" else "=" ++ f.FormatPlaceHolder)) := by
  have h1 : ∀ groups : List (List Flag),
      flagsHaveShort groups = groups.flatten.any (fun f => f.short.isSome) := by
    intro groups
    rw [flagsHaveShort, List.any_flatten]
  have hlit : ("    --" : String) = "    " ++ "--" := rfl
  refine ⟨h1, ?_, ?_, ?_⟩
  · intro g1 g2 hperm
    rw [h1, h1, perm_any _ hperm]
  · intro f hf
    cases hb : f.IsBool <;>
      simp [formatFlag, hf, hb, String.append_assoc] <;>
      rw [hlit, String.append_assoc]
  · intro f hf
    cases hb : f.IsBool <;>
      simp [formatFlag, hf, hb, String.append_assoc, String.append_empty]

theorem C2_short_flag_alignment_witness :
    flagsHaveShort [[secretFlag], [longFlag]] =
      flagsHaveShort [[], [longFlag, secretFlag]] ∧
    formatFlag true longFlag = "    " ++ formatFlag false longFlag := by
  constructor
  · apply C2_short_flag_alignment.2.1
    show [secretFlag, longFlag].Perm [longFlag, secretFlag]
    exact List.Perm.swap longFlag secretFlag []
  · exact C2_short_flag_alignment.2.2.1 longFlag rfl

/-- Claim C4: when the model defines no commands anywhere, the summary option
is forced off: the rendered lines (and the flushed result) are those of the
summary-off options, whatever the caller passed. -/
theorem C4_empty_model_override {σ ε : Type} (write : σ → String → Except ε σ)
    (options : HelpPrinterOptions) (ctx : Context) (s : σ)
    (h : ctx.Empty = true) :
    renderLines options ctx =
      renderLines { summary := false, compact := options.compact } ctx ∧
    DefaultHelpPrinter write options ctx s =
      DefaultHelpPrinter write { summary := false, compact := options.compact }
        ctx s := by
  have h1 : renderLines options ctx =
      renderLines { summary := false, compact := options.compact } ctx := by
    simp [renderLines, h]
  exact ⟨h1, by simp [DefaultHelpPrinter, h1]⟩

theorem C4_empty_model_override_witness :
    renderLines { summary := true, compact := false } ctxC3 =
      renderLines { summary := false, compact := false } ctxC3 :=
  (C4_empty_model_override appendSink { summary := true, compact := false }
    ctxC3 [] rfl).1

theorem flagRows_loop (haveShort : Bool) :
    ∀ (gs : List (List Flag)) (acc : List (String × String)) (n : Nat),
      0 < n →
      (gs.foldl (flagRowsStep haveShort) (acc, n)).1 =
        acc ++
          (gs.map
            (fun g2 => ("", "") :: visibleFlagRows haveShort g2)).flatten := by
  intro gs
  induction gs with
  | nil => intro acc n h; simp
  | cons g gs ih =>
    intro acc n h
    rw [List.foldl_cons]
    have hstep : flagRowsStep haveShort (acc, n) g =
        (acc ++ (("", "") :: visibleFlagRows haveShort g), n + 1) := by
      simp [flagRowsStep, visibleFlagRows, h, List.append_assoc]
    rw [hstep, ih _ _ (Nat.succ_pos n)]
    simp [List.append_assoc]

/-- Claim C10: a blank separator row is appended before every flag group
after the first whether or not the group contributes visible rows, so a
fully hidden group yields consecutive (or trailing) blank lines in the
Flags: section; and the Flags: header is printed whenever a group exists
even if all of its flags are hidden. -/
theorem C10_separators_and_header :
    (∀ (haveShort : Bool) (g : List Flag) (gs : List (List Flag)),
      flagRows haveShort (g :: gs) =
        visibleFlagRows haveShort g ++
          (gs.map
            (fun g2 => ("", "") :: visibleFlagRows haveShort g2)).flatten) ∧
    flagRows false [[aFlag], [hiddenFlag], [bFlag]] =
      [("--alpha", "first"), ("", ""), ("", ""), ("--beta", "second")] ∧
    renderLines { summary := false, compact := false } ctxC10a =
      ["Usage:  app", "", "Flags:", "  --alpha    first", "", "",
       "  --beta     second"] ∧
    renderLines { summary := false, compact := false } ctxC10 =
      ["Usage:  app", "", "Flags:"] := by
  refine ⟨?_, by decide, by decide, by decide⟩
  intro haveShort g gs
  rw [flagRows, List.foldl_cons]
  have hstep : flagRowsStep haveShort ([], 0) g =
      (visibleFlagRows haveShort g, 1) := by
    simp [flagRowsStep, visibleFlagRows]
  rw [hstep, flagRows_loop haveShort gs _ 1 Nat.one_pos]

/-- Claim C5: counterexample — a model with one command and non-empty node
help, rendered with summary on, also emits the wrapped help text, so the
output is not the usage line and the help hint only. -/
theorem C5_counterexample :
    renderLines { summary := true, compact := false } ctxC5 =
      ["Usage:  app <command>", "", "Some help.", "",
       "Run \"app --help\" for more information."] ∧
    ("Some help." ≠ "Usage:  app <command>" ∧
      "Some help." ≠ "Run \"app --help\" for more information." ∧
      "Some help." ≠ "") := by
  exact ⟨by decide, by decide⟩

/-- Claim C5 (amended): with summary on and a model defining at least one
command (so the empty-model override does not fire), the render is exactly
the usage line, the node's wrapped help when present, and the help hint —
in particular no Arguments:, Flags: or Commands: section and no table, no
matter what positionals, flags or child commands the node carries. -/
theorem C5_summary_suppression (options : HelpPrinterOptions) (ctx : Context)
    (hs : options.summary = true) (he : ctx.Empty = false) :
    renderLines options ctx = specSummaryRender options ctx := by
  have hw : (newHelpWriter ctx options).summary = true := hs
  rw [renderLines, specSummaryRender]
  simp only [he, Bool.false_eq_true, if_false]
  cases hsel : ctx.selected with
  | none =>
    simp only [printApp, printNodeDetail, helpWriter.Printf, hw, if_true,
      ite_true]
  | some cmd =>
    simp only [printCommand, printNodeDetail, helpWriter.Printf, hw, if_true,
      ite_true]

theorem C5_summary_suppression_witness :
    renderLines { summary := true, compact := false } ctxC5 =
      specSummaryRender { summary := true, compact := false } ctxC5 :=
  C5_summary_suppression { summary := true, compact := false } ctxC5 rfl rfl

theorem head?_dropWhile_false {α : Type} (p : α → Bool) :
    ∀ (l : List α) (c : α), (l.dropWhile p).head? = some c → p c = false := by
  intro l
  induction l with
  | nil => intro c h; simp [List.dropWhile] at h
  | cons x xs ih =>
    intro c h
    rw [List.dropWhile_cons] at h
    by_cases hx : p x = true
    · exact ih c (by simpa [hx] using h)
    · rw [if_neg hx] at h
      simp only [List.head?_cons, Option.some.injEq] at h
      rw [← h]
      exact Bool.eq_false_iff.mpr hx

theorem getLast?_trimRightSpaces (s : String) :
    (trimRightSpaces s).data.getLast? ≠ some ' ' := by
  have hdata : (trimRightSpaces s).data =
      (s.data.reverse.dropWhile (fun x => x == ' ')).reverse := rfl
  rw [hdata, List.getLast?_reverse]
  intro h
  have := head?_dropWhile_false (fun x => x == ' ') s.data.reverse ' ' h
  simp at this

theorem noTrail_nil : NoTrailingSpace [] :=
  fun s hs => absurd hs (List.not_mem_nil s)

theorem noTrail_print (h : helpWriter) (t : String) (lines : List String)
    (hl : NoTrailingSpace lines) : NoTrailingSpace (h.Print t lines) := by
  intro s hs
  rw [helpWriter.Print] at hs
  rcases List.mem_append.mp hs with h1 | h1
  · exact hl s h1
  · have h2 : s = trimRightSpaces (h.indent ++ t) := by simpa using h1
    rw [h2]
    exact getLast?_trimRightSpaces _

theorem noTrail_foldl {α : Type} (g : List String → α → List String)
    (hg : ∀ ls a, NoTrailingSpace ls → NoTrailingSpace (g ls a)) :
    ∀ (l : List α) (lines : List String),
      NoTrailingSpace lines → NoTrailingSpace (l.foldl g lines) := by
  intro l
  induction l with
  | nil => intro lines hl; simpa using hl
  | cons x xs ih =>
    intro lines hl
    rw [List.foldl_cons]
    exact ih _ (hg _ _ hl)

theorem noTrail_wrap (h : helpWriter) (t : String) (lines : List String)
    (hl : NoTrailingSpace lines) : NoTrailingSpace (h.Wrap t lines) :=
  noTrail_foldl _ (fun ls l2 h2 => noTrail_print h l2 ls h2) _ _ hl

theorem noTrail_ite {c : Prop} [Decidable c] {x y : List String}
    (hx : NoTrailingSpace x) (hy : NoTrailingSpace y) :
    NoTrailingSpace (if c then x else y) := by
  split
  · exact hx
  · exact hy

theorem noTrail_writeTwoColumns (w : helpWriter) (padding : Nat)
    (rows : List (String × String)) (lines : List String)
    (hl : NoTrailingSpace lines) :
    NoTrailingSpace (writeTwoColumns w padding rows lines) := by
  refine noTrail_foldl _ ?_ rows lines hl
  intro ls row h2
  exact noTrail_foldl _ (fun ls2 a h3 => noTrail_print w _ ls2 h3) _ _
    (noTrail_print w _ ls h2)

theorem noTrail_writeFlags (w : helpWriter) (groups : List (List Flag))
    (lines : List String) (hl : NoTrailingSpace lines) :
    NoTrailingSpace (writeFlags w groups lines) :=
  noTrail_writeTwoColumns w defaultColumnPadding _ lines hl

theorem noTrail_writePositionals (w : helpWriter) (args : List Positional)
    (lines : List String) (hl : NoTrailingSpace lines) :
    NoTrailingSpace (writePositionals w args lines) :=
  noTrail_writeTwoColumns w defaultColumnPadding _ lines hl

theorem noTrail_printCommandSummary (w : helpWriter) (cmd : Node)
    (lines : List String) (hl : NoTrailingSpace lines) :
    NoTrailingSpace (printCommandSummary w cmd lines) :=
  noTrail_ite (noTrail_wrap _ _ _ (noTrail_print _ _ _ hl))
    (noTrail_print _ _ _ hl)

theorem noTrail_foldl_pair {α : Type}
    (g : List String × Nat → α → List String × Nat)
    (hg : ∀ acc a, NoTrailingSpace acc.1 → NoTrailingSpace ((g acc a).1)) :
    ∀ (l : List α) (acc : List String × Nat),
      NoTrailingSpace acc.1 → NoTrailingSpace ((l.foldl g acc).1) := by
  intro l
  induction l with
  | nil => intro acc h; simpa using h
  | cons x xs ih =>
    intro acc h
    rw [List.foldl_cons]
    exact ih _ (hg _ _ h)

theorem noTrail_printNodeDetail (w : helpWriter) (node : Node)
    (lines : List String) (hl : NoTrailingSpace lines) :
    NoTrailingSpace (printNodeDetail w node lines) := by
  have h1 : NoTrailingSpace
      (if node.help ≠ "" then w.Wrap node.help (w.Print "" lines)
       else lines) :=
    noTrail_ite (noTrail_wrap _ _ _ (noTrail_print _ _ _ hl)) hl
  have h2 : NoTrailingSpace
      (if node.positional.length > 0 then
        writePositionals w.Indent node.positional
          (w.Print "Arguments:"
            (w.Print ""
              (if node.help ≠ "" then w.Wrap node.help (w.Print "" lines)
               else lines)))
       else
        if node.help ≠ "" then w.Wrap node.help (w.Print "" lines)
        else lines) :=
    noTrail_ite
      (noTrail_writePositionals _ _ _
        (noTrail_print _ _ _ (noTrail_print _ _ _ h1)))
      h1
  have h3 : NoTrailingSpace
      (if node.AllFlags.length > 0 then
        writeFlags w.Indent node.AllFlags
          (w.Print "Flags:"
            (w.Print ""
              (if node.positional.length > 0 then
                writePositionals w.Indent node.positional
                  (w.Print "Arguments:"
                    (w.Print ""
                      (if node.help ≠ "" then
                        w.Wrap node.help (w.Print "" lines)
                       else lines)))
               else
                if node.help ≠ "" then w.Wrap node.help (w.Print "" lines)
                else lines)))
       else
        if node.positional.length > 0 then
          writePositionals w.Indent node.positional
            (w.Print "Arguments:"
              (w.Print ""
                (if node.help ≠ "" then w.Wrap node.help (w.Print "" lines)
                 else lines)))
        else
          if node.help ≠ "" then w.Wrap node.help (w.Print "" lines)
          else lines) :=
    noTrail_ite
      (noTrail_writeFlags _ _ _
        (noTrail_print _ _ _ (noTrail_print _ _ _ h2)))
      h2
  have h4 : NoTrailingSpace
      (w.Print "Commands:"
        (w.Print ""
          (if node.AllFlags.length > 0 then
            writeFlags w.Indent node.AllFlags
              (w.Print "Flags:"
                (w.Print ""
                  (if node.positional.length > 0 then
                    writePositionals w.Indent node.positional
                      (w.Print "Arguments:"
                        (w.Print ""
                          (if node.help ≠ "" then
                            w.Wrap node.help (w.Print "" lines)
                           else lines)))
                   else
                    if node.help ≠ "" then
                      w.Wrap node.help (w.Print "" lines)
                    else lines)))
           else
            if node.positional.length > 0 then
              writePositionals w.Indent node.positional
                (w.Print "Arguments:"
                  (w.Print ""
                    (if node.help ≠ "" then
                      w.Wrap node.help (w.Print "" lines)
                     else lines)))
            else
              if node.help ≠ "" then w.Wrap node.help (w.Print "" lines)
              else lines))) :=
    noTrail_print _ _ _ (noTrail_print _ _ _ h3)
  have hloop : ∀ (acc : List String × Nat),
      NoTrailingSpace acc.1 →
      ∀ cmd : Node,
        NoTrailingSpace
          ((if acc.2 ≠ node.Leaves.length - 1 then
              w.Indent.Print "" (printCommandSummary w.Indent cmd acc.1)
            else printCommandSummary w.Indent cmd acc.1)) := by
    intro acc hacc cmd
    exact noTrail_ite
      (noTrail_print _ _ _ (noTrail_printCommandSummary _ _ _ hacc))
      (noTrail_printCommandSummary _ _ _ hacc)
  simp only [printNodeDetail]
  refine noTrail_ite h1 (noTrail_ite (noTrail_ite ?_ ?_) h3)
  · exact noTrail_writeTwoColumns _ _ _ _ h4
  · refine noTrail_foldl_pair _ ?_ node.Leaves _ h4
    intro acc cmd hacc
    exact hloop acc hacc cmd

theorem noTrail_printApp (w : helpWriter) (app : Application)
    (lines : List String) (hl : NoTrailingSpace lines) :
    NoTrailingSpace (printApp w app lines) := by
  have h1 : NoTrailingSpace
      (printNodeDetail w app.node
        (w.Printf ("Usage:  " ++ app.Summary) lines)) :=
    noTrail_printNodeDetail _ _ _ (noTrail_print _ _ _ hl)
  simp only [printApp]
  exact noTrail_ite
    (noTrail_ite (noTrail_print _ _ _ (noTrail_print _ _ _ h1))
      (noTrail_print _ _ _ (noTrail_print _ _ _ h1)))
    h1

theorem noTrail_printCommand (w : helpWriter) (app : Application) (cmd : Node)
    (lines : List String) (hl : NoTrailingSpace lines) :
    NoTrailingSpace (printCommand w app cmd lines) := by
  have h1 : NoTrailingSpace
      (printNodeDetail w cmd
        (w.Printf ("Usage:  " ++ app.name ++ " " ++ cmd.Summary) lines)) :=
    noTrail_printNodeDetail _ _ _ (noTrail_print _ _ _ hl)
  simp only [printCommand]
  exact noTrail_ite (noTrail_print _ _ _ (noTrail_print _ _ _ h1)) h1

theorem noTrail_renderLines (options : HelpPrinterOptions) (ctx : Context) :
    NoTrailingSpace (renderLines options ctx) := by
  rw [renderLines]
  cases ctx.selected
  · exact noTrail_printApp _ _ _ noTrail_nil
  · exact noTrail_printCommand _ _ _ _ noTrail_nil

theorem noTrail_runOps (h : helpWriter) :
    ∀ (ops : List (Nat × BufOp)) (lines : List String),
      NoTrailingSpace lines → NoTrailingSpace (runOps h ops lines) := by
  intro ops
  induction ops with
  | nil => intro lines hl; simpa [runOps] using hl
  | cons op rest ih =>
    intro lines hl
    obtain ⟨k, b⟩ := op
    cases b with
    | print t => exact ih _ (noTrail_print _ _ _ hl)
    | wrap t => exact ih _ (noTrail_wrap _ _ _ hl)

/-- Claim C6: counterexample — only trailing spaces are trimmed at insertion,
not all whitespace: printing a text ending in a tab stores a line whose last
character is a whitespace character. -/
theorem C6_counterexample :
    rootWriter.Print "a\t" [] = ["a\t"] ∧
    "a\t".data.getLast? = some '\t' ∧ Char.isWhitespace '\t' = true := by
  exact ⟨by decide, by decide, by decide⟩

/-- Claim C6 (amended): after any sequence of print/printf/wrap operations
through any nesting of indentation views, no stored line ends in a space
character, and every line of every render satisfies the same invariant. -/
theorem C6_no_trailing_space :
    (∀ (h : helpWriter) (ops : List (Nat × BufOp)) (lines : List String),
      NoTrailingSpace lines → NoTrailingSpace (runOps h ops lines)) ∧
    (∀ (options : HelpPrinterOptions) (ctx : Context),
      NoTrailingSpace (renderLines options ctx)) :=
  ⟨fun h ops lines hl => noTrail_runOps h ops lines hl,
   fun options ctx => noTrail_renderLines options ctx⟩

theorem C6_no_trailing_space_witness :
    NoTrailingSpace (runOps rootWriter [(0, .print "a  "), (1, .wrap "b")] []) :=
  C6_no_trailing_space.1 rootWriter [(0, .print "a  "), (1, .wrap "b")] []
    noTrail_nil

theorem splitParas_nonblank :
    ∀ (ls : List String), ∀ p ∈ splitParas ls, ∀ l ∈ p, trimWs l ≠ "" := by
  intro ls
  induction ls with
  | nil => intro p hp; simp [splitParas] at hp
  | cons x xs ih =>
    intro p hp l hl
    simp only [splitParas] at hp
    by_cases hx : trimWs x = ""
    · rw [if_pos (by simpa using hx)] at hp
      rcases List.mem_cons.mp hp with h1 | h1
      · subst h1; simp at hl
      · exact ih p h1 l hl
    · rw [if_neg (by simpa using hx)] at hp
      rcases hr : splitParas xs with _ | ⟨q, qs⟩
      · rw [hr] at hp
        simp at hp
        subst hp
        rw [List.mem_singleton.mp hl]
        exact hx
      · rw [hr] at hp
        rcases List.mem_cons.mp hp with h1 | h1
        · subst h1
          rcases List.mem_cons.mp hl with h2 | h2
          · rw [h2]; exact hx
          · exact ih q (by rw [hr]; exact List.mem_cons_self q qs) l h2
        · exact ih p (by rw [hr]; exact List.mem_cons.mpr (Or.inr h1)) l hl

theorem exists_nonws_of_trimWs_ne (l : String) (h : trimWs l ≠ "") :
    ∃ c ∈ l.data, c.isWhitespace = false := by
  by_contra hc
  push_neg at hc
  apply h
  have hall : ∀ c ∈ l.data, Char.isWhitespace c = true := by
    intro c hcm
    cases hb : c.isWhitespace
    · exact absurd hb (hc c hcm)
    · rfl
  have h1 : l.data.dropWhile Char.isWhitespace = [] :=
    List.dropWhile_eq_nil_iff.mpr hall
  show trimWs l = ""
  unfold trimWs
  rw [h1]
  rfl

theorem splitListOnP_exists_nonempty (p : Char → Bool) :
    ∀ (data : List Char) (c : Char), c ∈ data → p c = false →
      ∃ seg ∈ splitListOnP p data, seg ≠ [] := by
  intro data
  induction data with
  | nil => intro c hc; intro _; simp at hc
  | cons x xs ih =>
    intro c hc hpc
    simp only [splitListOnP]
    rcases List.mem_cons.mp hc with rfl | hc2
    · rw [if_neg (by simp [hpc])]
      rcases hr : splitListOnP p xs with _ | ⟨h1, t1⟩
      · exact ⟨[c], List.mem_singleton.mpr rfl, by simp⟩
      · exact ⟨c :: h1, List.mem_cons_self _ _, by simp⟩
    · obtain ⟨seg, hseg, hne⟩ := ih c hc2 hpc
      by_cases hx : p x = true
      · rw [if_pos hx]
        exact ⟨seg, List.mem_cons.mpr (Or.inr hseg), hne⟩
      · rw [if_neg hx]
        rcases hr : splitListOnP p xs with _ | ⟨h1, t1⟩
        · rw [hr] at hseg; simp at hseg
        · rw [hr] at hseg
          rcases List.mem_cons.mp hseg with rfl | h2
          · exact ⟨x :: seg, List.mem_cons_self _ _, by simp⟩
          · exact ⟨seg, List.mem_cons.mpr (Or.inr h2), hne⟩

theorem fields_ne_nil (l : String) (h : trimWs l ≠ "") : fields l ≠ [] := by
  obtain ⟨c, hcm, hcw⟩ := exists_nonws_of_trimWs_ne l h
  obtain ⟨seg, hseg, hne⟩ :=
    splitListOnP_exists_nonempty Char.isWhitespace l.data c hcm hcw
  unfold fields
  intro hnil
  rw [List.map_eq_nil_iff] at hnil
  have hmem : seg ∈ (splitListOnP Char.isWhitespace l.data).filter
      (fun l2 => !l2.isEmpty) :=
    List.mem_filter.mpr ⟨hseg, by simp [hne]⟩
  rw [hnil] at hmem
  exact absurd hmem (List.not_mem_nil seg)

theorem paragraphsOf_ne_nil (t : String) : ∀ p ∈ paragraphsOf t, p ≠ [] := by
  intro p hp
  unfold paragraphsOf at hp
  obtain ⟨q, hq, rfl⟩ := List.mem_map.mp hp
  have hq2 := List.mem_filter.mp hq
  rcases q with _ | ⟨l, rest⟩
  · simp at hq2
  · have hl : trimWs l ≠ "" :=
      splitParas_nonblank _ _ hq2.1 l (List.mem_cons_self _ _)
    have hf : fields l ≠ [] := fields_ne_nil l hl
    simp only [List.map_cons, List.flatten_cons]
    intro hcon
    rcases List.append_eq_nil.mp hcon with ⟨h1, _⟩
    exact hf h1

/-- Claim C9: wrapping at a non-positive width is defined and treated as
unbounded — every paragraph of the (whitespace-trimmed) input yields exactly
one output line — including the residual width `w.width - leftSize - padding`
that the two-column layout passes to the wrapper, which may be non-positive.
(The wrapper itself is modelled from the spec: the source delegates it to the
external `go/doc.ToText`.) -/
theorem C9_nonpositive_width :
    (∀ (width : Int) (text : String), width ≤ 0 →
      docToTextLines text width =
        (paragraphsOf (trimWs text)).map (fun p => [joinSep " " p])) ∧
    (∀ (w : helpWriter) (leftSize padding : Nat) (text : String),
      w.width - (leftSize : Int) - (padding : Int) ≤ 0 →
      docToTextLines text (w.width - (leftSize : Int) - (padding : Int)) =
        (paragraphsOf (trimWs text)).map (fun p => [joinSep " " p])) := by
  have hmain : ∀ (width : Int) (text : String), width ≤ 0 →
      docToTextLines text width =
        (paragraphsOf (trimWs text)).map (fun p => [joinSep " " p]) := by
    intro width text hw
    unfold docToTextLines
    apply List.map_congr_left
    intro p hp
    have hne := paragraphsOf_ne_nil (trimWs text) p hp
    rcases p with _ | ⟨x, xs⟩
    · exact absurd rfl hne
    · simp [wrapWords, hw]
  exact ⟨hmain, fun w leftSize padding text hw => hmain _ text hw⟩

theorem C9_nonpositive_width_witness :
    docToTextLines "one two\n\nthree" 0 = [["one two"], ["three"]] := by
  have h := C9_nonpositive_width.1 0 "one two\n\nthree" (by decide)
  rw [h]
  decide

end KongHelp
